import Mathlib

/-!
Verification of the js-types runtime type-description library
(src/lib/index.ts). JavaScript runtime values are embedded as the
inductive type JSValue; the library's type descriptors (the Type
interface and its implementations) are embedded as the inductive type Ty,
with the source's two methods getName and isTypeOf defined by recursion
over the descriptor, mirroring each class's method body. The casting
layer (fromJS / fromJSON) is embedded with explicit Except results in
place of thrown exceptions. The structural-equality operation equals is
not present in src/lib/index.ts (only the test suite calls it); it is
modelled from the spec where needed.

Numbers are modelled as integers: floating-point peculiarities (NaN,
negative zero) are outside the scope of this embedding.
-/

/-- Prototype of a JavaScript object, as far as the library observes it:
the library only ever compares a prototype against Object.prototype
(isPlainObject), so three cases suffice: exactly Object.prototype, the
null prototype, or any other prototype (class instances, etc.).
Arrays are a separate JSValue constructor; their prototype is
Array.prototype, i.e. not Object.prototype. -/
inductive Proto where
  | objectProto
  | nullProto
  | otherProto
deriving DecidableEq, Repr

/-- A JavaScript runtime value: null, undefined, the three primitive
kinds handled by the library (strings, numbers, booleans), arrays, and
objects tagged with their prototype. Object entries are the own
enumerable string-keyed properties, in insertion order. -/
inductive JSValue where
  | null
  | undefined
  | str (s : String)
  | num (n : Int)
  | bool (b : Bool)
  | arr (elems : List JSValue)
  | obj (proto : Proto) (entries : List (String × JSValue))
deriving Repr

/-- Result of the JavaScript typeof operator on an embedded value. -/
def typeofJS : JSValue → String
  | .null => "object"
  | .undefined => "undefined"
  | .str _ => "string"
  | .num _ => "number"
  | .bool _ => "boolean"
  | .arr _ => "object"
  | .obj _ _ => "object"

/-- Test value === null. -/
def jsIsNull : JSValue → Bool
  | .null => true
  | _ => false

/-- Test value === undefined. -/
def jsIsUndefined : JSValue → Bool
  | .undefined => true
  | _ => false

/-- Test Array.isArray(value). -/
def jsIsArray : JSValue → Bool
  | .arr _ => true
  | _ => false

/-- isPlainObject from src/lib/index.ts (line 503): value !== null &&
value !== undefined && Object.getPrototypeOf(value) === Object.prototype.
Only an object whose prototype is exactly Object.prototype passes;
primitives, arrays, class instances and null-prototype objects fail. -/
def isPlainObject : JSValue → Bool
  | .obj .objectProto _ => true
  | _ => false

/-- Elements of an array value; empty for non-arrays (only ever used
after an Array.isArray guard, mirroring the source). -/
def elemsOf : JSValue → List JSValue
  | .arr l => l
  | _ => []

/-- Own enumerable entries of an object value; empty for non-objects
(only ever used after an isPlainObject guard, mirroring the source). -/
def entriesOf : JSValue → List (String × JSValue)
  | .obj _ e => e
  | _ => []

/-- First element of a list of values, or undefined when the list is
empty: models the JavaScript indexing value[i] walking off the end of an
array, which yields undefined rather than failing. -/
def headOr : List JSValue → JSValue
  | [] => .undefined
  | x :: _ => x

/-- Lookup of an own property by key in an entry list (first match). -/
def jsLookup (entries : List (String × JSValue)) (k : String) : Option JSValue :=
  match entries.find? (fun kv => kv.1 == k) with
  | some kv => some kv.2
  | none => none

/-- The JavaScript property read value[k] for a string key: the own
property if the value is an object and has it, undefined otherwise. -/
def jsGet (v : JSValue) (k : String) : JSValue :=
  match v with
  | .obj _ e => (jsLookup e k).getD .undefined
  | _ => .undefined

/-- All keys of an entry list are pairwise distinct. Every genuine
JavaScript object satisfies this: an object cannot carry two own
properties with the same key. -/
def keysNodup : List (String × JSValue) → Bool
  | [] => true
  | (k, _) :: rest => rest.all (fun kv => !(kv.1 == k)) && keysNodup rest

mutual

/-- A value is well formed when every object nested inside it has
pairwise-distinct keys, which holds of every value a JavaScript runtime
can construct. -/
def JSValue.wf : JSValue → Bool
  | .null => true
  | .undefined => true
  | .str _ => true
  | .num _ => true
  | .bool _ => true
  | .arr l => JSValue.wfList l
  | .obj _ e => keysNodup e && JSValue.wfEntries e
termination_by v => sizeOf v

/-- Well-formedness of every element of a list of values. -/
def JSValue.wfList : List JSValue → Bool
  | [] => true
  | x :: xs => x.wf && JSValue.wfList xs
termination_by l => sizeOf l

/-- Well-formedness of every value of an entry list. -/
def JSValue.wfEntries : List (String × JSValue) → Bool
  | [] => true
  | (_k, w) :: rest => w.wf && JSValue.wfEntries rest
termination_by e => sizeOf e

end

mutual

/-- The JavaScript strict-equality operator === restricted to the
diagonal use the library makes of it: on primitives it is value
equality; on arrays and objects it is reference equality, which this
embedding renders structurally (two occurrences of the same reference
are structurally identical, so the rendering agrees with === whenever
both operands are the same value). -/
def jsEq : JSValue → JSValue → Bool
  | .null, .null => true
  | .undefined, .undefined => true
  | .str a, .str b => a == b
  | .num a, .num b => a == b
  | .bool a, .bool b => a == b
  | .arr a, .arr b => jsEqList a b
  | .obj p a, .obj q b => p == q && jsEqEntries a b
  | _, _ => false
termination_by a _ => sizeOf a

/-- Pointwise jsEq on lists of values. -/
def jsEqList : List JSValue → List JSValue → Bool
  | [], [] => true
  | x :: xs, y :: ys => jsEq x y && jsEqList xs ys
  | _, _ => false
termination_by a _ => sizeOf a

/-- Pointwise jsEq on entry lists. -/
def jsEqEntries : List (String × JSValue) → List (String × JSValue) → Bool
  | [], [] => true
  | (k, w) :: ra, (k2, w2) :: rb => k == k2 && jsEq w w2 && jsEqEntries ra rb
  | _, _ => false
termination_by a _ => sizeOf a

end

/-- A runtime type descriptor of src/lib/index.ts: one constructor per
exported descriptor kind (the Type interface implementations). The
source's lazily-resolved ReferenceOfType wrapper is intentionally not
embedded: it is a thunk around another descriptor and can tie a cycle,
which an inductive type cannot represent. -/
inductive Ty where
  | primitive (name : String)
  | anyT
  | intersectionOf (a b : Ty)
  | unionOf (a b : Ty)
  | nullableOf (t : Ty)
  | optionalOf (t : Ty)
  | arrayOf (t : Ty)
  | objectOf (t : Ty)
  | tupleOf (ts : List Ty)
  | shapeOf (ts : List (String × Ty))
deriving Repr

mutual

/-- getName of each descriptor, from src/lib/index.ts: PrimitiveType
returns its stored name; anyType returns "any"; IntersectionOfType joins
with " | "; UnionOfType joins with " & "; NullableOfType forwards to its
child; OptionalOfType appends "?"; ArrayOfType and ObjectOfType wrap in
Array< > and Object< >; TupleOfType renders [t1, t2, ...]; ShapeOfType
renders key: name pairs inside braces. -/
def Ty.getName : Ty → String
  | .primitive name => name
  | .anyT => "any"
  | .intersectionOf a b => a.getName ++ " | " ++ b.getName
  | .unionOf a b => a.getName ++ " & " ++ b.getName
  | .nullableOf t => t.getName
  | .optionalOf t => t.getName ++ "?"
  | .arrayOf t => "Array<" ++ t.getName ++ ">"
  | .objectOf t => "Object<" ++ t.getName ++ ">"
  | .tupleOf ts => "[" ++ String.intercalate ", " (Ty.nameList ts) ++ "]"
  | .shapeOf ts => "\x7b" ++ String.intercalate ", " (Ty.entryNameList ts) ++ "\x7d"
termination_by t => sizeOf t

/-- this.types.map(getTypeName) of TupleOfType.getName. -/
def Ty.nameList : List Ty → List String
  | [] => []
  | t :: ts => t.getName :: Ty.nameList ts
termination_by ts => sizeOf ts

/-- dict.map(this.types, formatEntry) of ShapeOfType.getName. -/
def Ty.entryNameList : List (String × Ty) → List String
  | [] => []
  | (k, t) :: rest => (k ++ ": " ++ t.getName) :: Ty.entryNameList rest
termination_by ts => sizeOf ts

end

mutual

/-- isTypeOf of each descriptor, from src/lib/index.ts:
PrimitiveType: typeof value === this.name;
anyType: value !== null && value !== undefined;
IntersectionOfType: a.isTypeOf(value) || b.isTypeOf(value);
UnionOfType: a.isTypeOf(value) && b.isTypeOf(value);
NullableOfType: value === null || this.type.isTypeOf(value);
OptionalOfType: value === undefined || this.type.isTypeOf(value);
ArrayOfType: Array.isArray(value) && every element passes the child;
ObjectOfType: isPlainObject(value) && every own value passes the child;
TupleOfType: Array.isArray(value) && for each declared index i,
  this.types[i].isTypeOf(value[i]) (out-of-range reads give undefined);
ShapeOfType: isPlainObject(value) && for each declared key,
  this.types[key].isTypeOf(value[key]). -/
def Ty.isTypeOf : Ty → JSValue → Bool
  | .primitive name, v => typeofJS v == name
  | .anyT, v => !(jsIsNull v) && !(jsIsUndefined v)
  | .intersectionOf a b, v => a.isTypeOf v || b.isTypeOf v
  | .unionOf a b, v => a.isTypeOf v && b.isTypeOf v
  | .nullableOf t, v => jsIsNull v || t.isTypeOf v
  | .optionalOf t, v => jsIsUndefined v || t.isTypeOf v
  | .arrayOf t, v => jsIsArray v && Ty.allOf t (elemsOf v)
  | .objectOf t, v => isPlainObject v && Ty.allValuesOf t (entriesOf v)
  | .tupleOf ts, v => jsIsArray v && Ty.tupleCheck ts (elemsOf v)
  | .shapeOf ts, v => isPlainObject v && Ty.shapeCheck ts v
termination_by t _ => (sizeOf t, 0)

/-- value.every(this.valueType.isTypeOf) of ArrayOfType. -/
def Ty.allOf (t : Ty) : List JSValue → Bool
  | [] => true
  | x :: xs => t.isTypeOf x && Ty.allOf t xs
termination_by l => (sizeOf t, 1 + l.length)

/-- dict.every(value, this.valueType.isTypeOf) of ObjectOfType. -/
def Ty.allValuesOf (t : Ty) : List (String × JSValue) → Bool
  | [] => true
  | (_k, w) :: rest => t.isTypeOf w && Ty.allValuesOf t rest
termination_by e => (sizeOf t, 1 + e.length)

/-- this.types.every((type, index) => type.isTypeOf(value[index])) of
TupleOfType: each declared descriptor is checked against the value at
its index, reading undefined past the end of the value list. -/
def Ty.tupleCheck : List Ty → List JSValue → Bool
  | [], _ => true
  | t :: ts, l => t.isTypeOf (headOr l) && Ty.tupleCheck ts l.tail
termination_by ts _ => (sizeOf ts, 0)

/-- dict.every(this.types, (type, key) => type.isTypeOf(value[key])) of
ShapeOfType. -/
def Ty.shapeCheck : List (String × Ty) → JSValue → Bool
  | [], _ => true
  | (k, t) :: rest, v => t.isTypeOf (jsGet v k) && Ty.shapeCheck rest v
termination_by ts _ => (sizeOf ts, 0)

end

/-- Exported descriptor stringType = new PrimitiveType("string"). -/
def stringType : Ty := .primitive "string"

/-- Exported descriptor numberType = new PrimitiveType("number"). -/
def numberType : Ty := .primitive "number"

/-- Exported descriptor booleanType = new PrimitiveType("boolean"). -/
def booleanType : Ty := .primitive "boolean"

/-- Exported descriptor anyType (src/lib/index.ts lines 447-454). -/
def anyType : Ty := .anyT

-- Unconditional rewrite equations for the recursively defined methods,
-- one per descriptor constructor.

@[simp] theorem isTypeOf_primitive (n : String) (v : JSValue) :
    (Ty.primitive n).isTypeOf v = (typeofJS v == n) := by
  rw [Ty.isTypeOf.eq_def]

@[simp] theorem isTypeOf_anyT (v : JSValue) :
    Ty.anyT.isTypeOf v = (!(jsIsNull v) && !(jsIsUndefined v)) := by
  rw [Ty.isTypeOf.eq_def]

@[simp] theorem isTypeOf_intersectionOf (a b : Ty) (v : JSValue) :
    (Ty.intersectionOf a b).isTypeOf v = (a.isTypeOf v || b.isTypeOf v) := by
  rw [Ty.isTypeOf.eq_def]

@[simp] theorem isTypeOf_unionOf (a b : Ty) (v : JSValue) :
    (Ty.unionOf a b).isTypeOf v = (a.isTypeOf v && b.isTypeOf v) := by
  rw [Ty.isTypeOf.eq_def]

@[simp] theorem isTypeOf_nullableOf (t : Ty) (v : JSValue) :
    (Ty.nullableOf t).isTypeOf v = (jsIsNull v || t.isTypeOf v) := by
  rw [Ty.isTypeOf.eq_def]

@[simp] theorem isTypeOf_optionalOf (t : Ty) (v : JSValue) :
    (Ty.optionalOf t).isTypeOf v = (jsIsUndefined v || t.isTypeOf v) := by
  rw [Ty.isTypeOf.eq_def]

@[simp] theorem isTypeOf_arrayOf (t : Ty) (v : JSValue) :
    (Ty.arrayOf t).isTypeOf v = (jsIsArray v && Ty.allOf t (elemsOf v)) := by
  rw [Ty.isTypeOf.eq_def]

@[simp] theorem isTypeOf_objectOf (t : Ty) (v : JSValue) :
    (Ty.objectOf t).isTypeOf v = (isPlainObject v && Ty.allValuesOf t (entriesOf v)) := by
  rw [Ty.isTypeOf.eq_def]

@[simp] theorem isTypeOf_tupleOf (ts : List Ty) (v : JSValue) :
    (Ty.tupleOf ts).isTypeOf v = (jsIsArray v && Ty.tupleCheck ts (elemsOf v)) := by
  rw [Ty.isTypeOf.eq_def]

@[simp] theorem isTypeOf_shapeOf (ts : List (String × Ty)) (v : JSValue) :
    (Ty.shapeOf ts).isTypeOf v = (isPlainObject v && Ty.shapeCheck ts v) := by
  rw [Ty.isTypeOf.eq_def]

@[simp] theorem allOf_nil (t : Ty) : Ty.allOf t [] = true := by
  rw [Ty.allOf.eq_def]

@[simp] theorem allOf_cons (t : Ty) (x : JSValue) (xs : List JSValue) :
    Ty.allOf t (x :: xs) = (t.isTypeOf x && Ty.allOf t xs) := by
  rw [Ty.allOf.eq_def]

@[simp] theorem allValuesOf_nil (t : Ty) : Ty.allValuesOf t [] = true := by
  rw [Ty.allValuesOf.eq_def]

@[simp] theorem allValuesOf_cons (t : Ty) (k : String) (w : JSValue)
    (rest : List (String × JSValue)) :
    Ty.allValuesOf t ((k, w) :: rest) = (t.isTypeOf w && Ty.allValuesOf t rest) := by
  rw [Ty.allValuesOf.eq_def]

@[simp] theorem tupleCheck_nil (l : List JSValue) : Ty.tupleCheck [] l = true := by
  rw [Ty.tupleCheck.eq_def]

@[simp] theorem tupleCheck_cons (t : Ty) (ts : List Ty) (l : List JSValue) :
    Ty.tupleCheck (t :: ts) l = (t.isTypeOf (headOr l) && Ty.tupleCheck ts l.tail) := by
  rw [Ty.tupleCheck.eq_def]

@[simp] theorem shapeCheck_nil (v : JSValue) : Ty.shapeCheck [] v = true := by
  rw [Ty.shapeCheck.eq_def]

@[simp] theorem shapeCheck_cons (k : String) (t : Ty) (rest : List (String × Ty))
    (v : JSValue) :
    Ty.shapeCheck ((k, t) :: rest) v = (t.isTypeOf (jsGet v k) && Ty.shapeCheck rest v) := by
  rw [Ty.shapeCheck.eq_def]

@[simp] theorem getName_primitive (n : String) : (Ty.primitive n).getName = n := by
  rw [Ty.getName.eq_def]

@[simp] theorem getName_anyT : Ty.anyT.getName = "any" := by
  rw [Ty.getName.eq_def]

@[simp] theorem getName_intersectionOf (a b : Ty) :
    (Ty.intersectionOf a b).getName = a.getName ++ " | " ++ b.getName := by
  rw [Ty.getName.eq_def]

mutual

/-- Modelled from the spec: the structural-equality operation equals of
the Type interface, which is absent from src/lib/index.ts (the test
suite calls it on every descriptor, but its implementation is not under
src/). Section 4 of the spec describes it per descriptor:
primitives use exact value equality (strict equality);
the any descriptor likewise compares with strict equality (per tests);
the either-combinator (intersectionOf) delegates to whichever single
  child accepts both operands and returns false when no child does;
the both-combinator (unionOf) requires both children to agree;
nullable returns true when both operands are the null sentinel and
  otherwise delegates to the child, optional likewise with undefined;
array-of requires equal lengths and pairwise child equality;
map-of (objectOf) requires equal key counts and, for every key of the
  first operand, a child-equal value in the second;
tuple-of compares pairwise over the declared indices only;
shape-of compares the declared keys only. -/
def Ty.equals : Ty → JSValue → JSValue → Bool
  | .primitive _, a, b => jsEq a b
  | .anyT, a, b => jsEq a b
  | .intersectionOf x y, a, b =>
    cond (x.isTypeOf a && x.isTypeOf b) (x.equals a b)
      (cond (y.isTypeOf a && y.isTypeOf b) (y.equals a b) false)
  | .unionOf x y, a, b => x.equals a b && y.equals a b
  | .nullableOf t, a, b => (jsIsNull a && jsIsNull b) || t.equals a b
  | .optionalOf t, a, b => (jsIsUndefined a && jsIsUndefined b) || t.equals a b
  | .arrayOf t, a, b => Ty.equalsList t (elemsOf a) (elemsOf b)
  | .objectOf t, a, b =>
    ((entriesOf a).length == (entriesOf b).length) &&
      Ty.equalsEntries t (entriesOf a) (entriesOf b)
  | .tupleOf ts, a, b => Ty.tupleEquals ts (elemsOf a) (elemsOf b)
  | .shapeOf ts, a, b => Ty.shapeEquals ts a b
termination_by t _ _ => (sizeOf t, 0)

/-- Modelled from the spec: same length and pairwise element equality
via the child descriptor, in order (array-of equality). -/
def Ty.equalsList (t : Ty) : List JSValue → List JSValue → Bool
  | [], [] => true
  | x :: xs, y :: ys => t.equals x y && Ty.equalsList t xs ys
  | [], _ :: _ => false
  | _ :: _, [] => false
termination_by la _ => (sizeOf t, 1 + la.length)

/-- Modelled from the spec: every key present in the first entry list
has a child-equal value in the second (map-of equality). -/
def Ty.equalsEntries (t : Ty) : List (String × JSValue) →
    List (String × JSValue) → Bool
  | [], _ => true
  | (k, w) :: rest, eb =>
    (match jsLookup eb k with
     | some w2 => t.equals w w2
     | none => false) && Ty.equalsEntries t rest eb
termination_by ea _ => (sizeOf t, 1 + ea.length)

/-- Modelled from the spec: pairwise equality over the declared indices
only (tuple-of equality); indices past the end read undefined. -/
def Ty.tupleEquals : List Ty → List JSValue → List JSValue → Bool
  | [], _, _ => true
  | t :: ts, la, lb =>
    t.equals (headOr la) (headOr lb) && Ty.tupleEquals ts la.tail lb.tail
termination_by ts _ _ => (sizeOf ts, 0)

/-- Modelled from the spec: equality over the declared keys only
(shape-of equality). -/
def Ty.shapeEquals : List (String × Ty) → JSValue → JSValue → Bool
  | [], _, _ => true
  | (k, t) :: rest, a, b =>
    t.equals (jsGet a k) (jsGet b k) && Ty.shapeEquals rest a b
termination_by ts _ _ => (sizeOf ts, 0)

end

/-- The ValueError of src/lib/index.ts: a message plus the offending
value carried on the error. -/
structure ValueError where
  message : String
  value : JSValue
deriving Repr

/-- fromJS from src/lib/index.ts (lines 321-326): return the value
itself when the descriptor accepts it, otherwise throw a ValueError
whose message is "Expected " followed by the descriptor name and whose
value field is the rejected value. Thrown exceptions are rendered as
Except.error. -/
def fromJS (value : JSValue) (type : Ty) : Except ValueError JSValue :=
  cond (type.isTypeOf value) (.ok value)
    (.error ⟨"Expected " ++ type.getName, value⟩)

/-- An exception that can cross the fromJSON boundary: the SyntaxError
thrown by JSON.parse on malformed input, a ValueError, or any other
host exception. -/
inductive JSError where
  | syntaxError
  | valueError (e : ValueError)
  | hostError (msg : String)
deriving Repr

/-- Body of the try block of fromJSON: JSON.parse(value) followed by
fromJS on the parsed value. JSON.parse is a host builtin, so it enters
the model as the parse argument, an arbitrary function from the input
string to either a parsed value or a thrown exception. A ValueError
thrown by fromJS crosses as JSError.valueError. -/
def fromJSONtryBody (parse : String → Except JSError JSValue)
    (value : String) (type : Ty) : Except JSError JSValue :=
  match parse value with
  | .error e => .error e
  | .ok v =>
    match fromJS v type with
    | .ok r => .ok r
    | .error e => .error (JSError.valueError e)

/-- fromJSON from src/lib/index.ts (lines 328-337): run the try body;
if it throws a SyntaxError, throw instead a ValueError with the fixed
message "Invalid JSON" carrying the raw input string; rethrow every
other exception unchanged. -/
def fromJSON (parse : String → Except JSError JSValue)
    (value : String) (type : Ty) : Except JSError JSValue :=
  match fromJSONtryBody parse value type with
  | .ok r => .ok r
  | .error .syntaxError =>
    .error (.valueError ⟨"Invalid JSON", .str value⟩)
  | .error e => .error e

@[simp] theorem equals_primitive (n : String) (a b : JSValue) :
    (Ty.primitive n).equals a b = jsEq a b := by
  rw [Ty.equals.eq_def]

@[simp] theorem equals_anyT (a b : JSValue) :
    Ty.anyT.equals a b = jsEq a b := by
  rw [Ty.equals.eq_def]

@[simp] theorem equals_intersectionOf (x y : Ty) (a b : JSValue) :
    (Ty.intersectionOf x y).equals a b =
      cond (x.isTypeOf a && x.isTypeOf b) (x.equals a b)
        (cond (y.isTypeOf a && y.isTypeOf b) (y.equals a b) false) := by
  rw [Ty.equals.eq_def]

@[simp] theorem equals_unionOf (x y : Ty) (a b : JSValue) :
    (Ty.unionOf x y).equals a b = (x.equals a b && y.equals a b) := by
  rw [Ty.equals.eq_def]

@[simp] theorem equals_nullableOf (t : Ty) (a b : JSValue) :
    (Ty.nullableOf t).equals a b =
      ((jsIsNull a && jsIsNull b) || t.equals a b) := by
  rw [Ty.equals.eq_def]

@[simp] theorem equals_optionalOf (t : Ty) (a b : JSValue) :
    (Ty.optionalOf t).equals a b =
      ((jsIsUndefined a && jsIsUndefined b) || t.equals a b) := by
  rw [Ty.equals.eq_def]

@[simp] theorem equals_arrayOf (t : Ty) (a b : JSValue) :
    (Ty.arrayOf t).equals a b = Ty.equalsList t (elemsOf a) (elemsOf b) := by
  rw [Ty.equals.eq_def]

@[simp] theorem equals_objectOf (t : Ty) (a b : JSValue) :
    (Ty.objectOf t).equals a b =
      (((entriesOf a).length == (entriesOf b).length) &&
        Ty.equalsEntries t (entriesOf a) (entriesOf b)) := by
  rw [Ty.equals.eq_def]

@[simp] theorem equals_tupleOf (ts : List Ty) (a b : JSValue) :
    (Ty.tupleOf ts).equals a b = Ty.tupleEquals ts (elemsOf a) (elemsOf b) := by
  rw [Ty.equals.eq_def]

@[simp] theorem equals_shapeOf (ts : List (String × Ty)) (a b : JSValue) :
    (Ty.shapeOf ts).equals a b = Ty.shapeEquals ts a b := by
  rw [Ty.equals.eq_def]

@[simp] theorem equalsList_nil (t : Ty) : Ty.equalsList t [] [] = true := by
  rw [Ty.equalsList.eq_def]

@[simp] theorem equalsList_cons (t : Ty) (x y : JSValue) (xs ys : List JSValue) :
    Ty.equalsList t (x :: xs) (y :: ys) =
      (t.equals x y && Ty.equalsList t xs ys) := by
  rw [Ty.equalsList.eq_def]

@[simp] theorem equalsEntries_nil (t : Ty) (eb : List (String × JSValue)) :
    Ty.equalsEntries t [] eb = true := by
  rw [Ty.equalsEntries.eq_def]

@[simp] theorem equalsEntries_cons (t : Ty) (k : String) (w : JSValue)
    (rest eb : List (String × JSValue)) :
    Ty.equalsEntries t ((k, w) :: rest) eb =
      ((match jsLookup eb k with
        | some w2 => t.equals w w2
        | none => false) && Ty.equalsEntries t rest eb) := by
  rw [Ty.equalsEntries.eq_def]

@[simp] theorem tupleEquals_nil (la lb : List JSValue) :
    Ty.tupleEquals [] la lb = true := by
  rw [Ty.tupleEquals.eq_def]

@[simp] theorem tupleEquals_cons (t : Ty) (ts : List Ty) (la lb : List JSValue) :
    Ty.tupleEquals (t :: ts) la lb =
      (t.equals (headOr la) (headOr lb) && Ty.tupleEquals ts la.tail lb.tail) := by
  rw [Ty.tupleEquals.eq_def]

@[simp] theorem shapeEquals_nil (a b : JSValue) :
    Ty.shapeEquals [] a b = true := by
  rw [Ty.shapeEquals.eq_def]

@[simp] theorem shapeEquals_cons (k : String) (t : Ty) (rest : List (String × Ty))
    (a b : JSValue) :
    Ty.shapeEquals ((k, t) :: rest) a b =
      (t.equals (jsGet a k) (jsGet b k) && Ty.shapeEquals rest a b) := by
  rw [Ty.shapeEquals.eq_def]

@[simp] theorem wf_null : JSValue.null.wf = true := by rw [JSValue.wf.eq_def]

@[simp] theorem wf_undefined : JSValue.undefined.wf = true := by rw [JSValue.wf.eq_def]

@[simp] theorem wf_str (s : String) : (JSValue.str s).wf = true := by
  rw [JSValue.wf.eq_def]

@[simp] theorem wf_num (n : Int) : (JSValue.num n).wf = true := by
  rw [JSValue.wf.eq_def]

@[simp] theorem wf_bool (b : Bool) : (JSValue.bool b).wf = true := by
  rw [JSValue.wf.eq_def]

@[simp] theorem wf_arr (l : List JSValue) :
    (JSValue.arr l).wf = JSValue.wfList l := by
  rw [JSValue.wf.eq_def]

@[simp] theorem wf_obj (p : Proto) (e : List (String × JSValue)) :
    (JSValue.obj p e).wf = (keysNodup e && JSValue.wfEntries e) := by
  rw [JSValue.wf.eq_def]

@[simp] theorem wfList_nil : JSValue.wfList [] = true := by
  rw [JSValue.wfList.eq_def]

@[simp] theorem wfList_cons (x : JSValue) (xs : List JSValue) :
    JSValue.wfList (x :: xs) = (x.wf && JSValue.wfList xs) := by
  rw [JSValue.wfList.eq_def]

@[simp] theorem wfEntries_nil : JSValue.wfEntries [] = true := by
  rw [JSValue.wfEntries.eq_def]

@[simp] theorem wfEntries_cons (k : String) (w : JSValue)
    (rest : List (String × JSValue)) :
    JSValue.wfEntries ((k, w) :: rest) = (w.wf && JSValue.wfEntries rest) := by
  rw [JSValue.wfEntries.eq_def]

mutual

/-- Strict equality is reflexive on embedded values. -/
theorem jsEq_refl : ∀ (v : JSValue), jsEq v v = true
  | .null => by simp [jsEq.eq_def]
  | .undefined => by simp [jsEq.eq_def]
  | .str s => by simp [jsEq.eq_def]
  | .num n => by simp [jsEq.eq_def]
  | .bool b => by simp [jsEq.eq_def]
  | .arr l => by rw [jsEq.eq_def]; exact jsEqList_refl l
  | .obj p e => by rw [jsEq.eq_def]; simp [jsEqEntries_refl e]
termination_by v => sizeOf v

/-- Pointwise strict equality is reflexive on value lists. -/
theorem jsEqList_refl : ∀ (l : List JSValue), jsEqList l l = true
  | [] => by simp [jsEqList.eq_def]
  | x :: xs => by rw [jsEqList.eq_def]; simp [jsEq_refl x, jsEqList_refl xs]
termination_by l => sizeOf l

/-- Pointwise strict equality is reflexive on entry lists. -/
theorem jsEqEntries_refl : ∀ (e : List (String × JSValue)), jsEqEntries e e = true
  | [] => by simp [jsEqEntries.eq_def]
  | (k, w) :: rest => by
    rw [jsEqEntries.eq_def]; simp [jsEq_refl w, jsEqEntries_refl rest]
termination_by e => sizeOf e

end

/-- A value passes Array.isArray exactly when it is an array. -/
theorem jsIsArray_iff (v : JSValue) :
    jsIsArray v = true ↔ ∃ l, v = JSValue.arr l := by
  cases v <;> simp [jsIsArray]

/-- A value passes isPlainObject exactly when it is an object whose
prototype is Object.prototype. -/
theorem isPlainObject_iff (v : JSValue) :
    isPlainObject v = true ↔ ∃ e, v = JSValue.obj Proto.objectProto e := by
  cases v with
  | obj p e => cases p <;> simp [isPlainObject]
  | _ => simp [isPlainObject]

/-- Element-wise reading of the array membership loop. -/
theorem allOf_iff (t : Ty) (l : List JSValue) :
    Ty.allOf t l = true ↔ ∀ x ∈ l, t.isTypeOf x = true := by
  induction l with
  | nil => simp
  | cons x xs ih => simp [Bool.and_eq_true, ih]

/-- Element-wise reading of the object membership loop. -/
theorem allValuesOf_iff (t : Ty) (e : List (String × JSValue)) :
    Ty.allValuesOf t e = true ↔ ∀ kv ∈ e, t.isTypeOf kv.2 = true := by
  induction e with
  | nil => simp
  | cons kv rest ih =>
    obtain ⟨k, w⟩ := kv
    simp [Bool.and_eq_true, ih]

/-- Key-wise reading of the shape membership loop. -/
theorem shapeCheck_iff (ts : List (String × Ty)) (v : JSValue) :
    Ty.shapeCheck ts v = true ↔ ∀ kt ∈ ts, Ty.isTypeOf kt.2 (jsGet v kt.1) = true := by
  induction ts with
  | nil => simp
  | cons kt rest ih =>
    obtain ⟨k, t⟩ := kt
    simp [Bool.and_eq_true, ih]

/-- Element-wise reading of value-list well-formedness. -/
theorem wfList_mem (l : List JSValue) (h : JSValue.wfList l = true) :
    ∀ x ∈ l, x.wf = true := by
  induction l with
  | nil => simp
  | cons x xs ih =>
    simp only [wfList_cons, Bool.and_eq_true] at h
    intro y hy
    rcases List.mem_cons.mp hy with rfl | hy
    · exact h.1
    · exact ih h.2 y hy

/-- Element-wise reading of entry-list well-formedness. -/
theorem wfEntries_mem (e : List (String × JSValue))
    (h : JSValue.wfEntries e = true) : ∀ kv ∈ e, JSValue.wf kv.2 = true := by
  induction e with
  | nil => simp
  | cons kv rest ih =>
    obtain ⟨k, w⟩ := kv
    simp only [wfEntries_cons, Bool.and_eq_true] at h
    intro kv2 hkv2
    rcases List.mem_cons.mp hkv2 with rfl | hkv2
    · exact h.1
    · exact ih h.2 kv2 hkv2

/-- In an entry list with pairwise-distinct keys, lookup of the key of
any entry returns exactly that entry's value. -/
theorem jsLookup_nodup (e : List (String × JSValue)) (k : String) (w : JSValue)
    (hnd : keysNodup e = true) (hin : (k, w) ∈ e) : jsLookup e k = some w := by
  induction e with
  | nil => simp at hin
  | cons kv rest ih =>
    obtain ⟨k1, w1⟩ := kv
    simp only [keysNodup, Bool.and_eq_true, List.all_eq_true] at hnd
    rcases List.mem_cons.mp hin with heq | hmem
    · obtain ⟨rfl, rfl⟩ := Prod.mk.injEq .. ▸ heq
      simp [jsLookup, List.find?_cons]
    · have hk1 : (k1 == k) = false := by
        by_contra hc
        have : k1 = k := by
          have := Bool.of_not_eq_false hc
          exact (beq_iff_eq.mp this)
        subst this
        have := hnd.1 (k1, w) hmem
        simp at this
      simp only [jsLookup, List.find?_cons] at *
      simp only [hk1]
      exact ih hnd.2 hmem

/-- Property reads out of a well-formed value are well formed. -/
theorem wf_jsGet (v : JSValue) (k : String) (h : v.wf = true) :
    (jsGet v k).wf = true := by
  cases v with
  | obj p e =>
    simp only [wf_obj, Bool.and_eq_true] at h
    simp only [jsGet]
    cases hfind : jsLookup e k with
    | none => simp
    | some w =>
      simp only [Option.getD_some]
      simp only [jsLookup] at hfind
      cases hfind2 : e.find? (fun kv => kv.1 == k) with
      | none => rw [hfind2] at hfind; simp at hfind
      | some kv =>
        rw [hfind2] at hfind
        simp only [Option.some.injEq] at hfind
        subst hfind
        exact wfEntries_mem e h.2 kv (List.mem_of_find?_eq_some hfind2)
  | _ => simp [jsGet]

/-- The head read of a well-formed value list is well formed (reading
undefined off the empty list included). -/
theorem wf_headOr (l : List JSValue) (h : JSValue.wfList l = true) :
    (headOr l).wf = true := by
  cases l with
  | nil => simp [headOr]
  | cons x xs =>
    simp only [wfList_cons, Bool.and_eq_true] at h
    simpa [headOr] using h.1

/-- The tail of a well-formed value list is well formed. -/
theorem wfList_tail (l : List JSValue) (h : JSValue.wfList l = true) :
    JSValue.wfList l.tail = true := by
  cases l with
  | nil => simp
  | cons x xs =>
    simp only [wfList_cons, Bool.and_eq_true] at h
    simpa using h.2

mutual

/-- Reflexivity of the modelled equals, relative to membership: any
well-formed value accepted by a descriptor is equal to itself under
that descriptor. -/
theorem equalsRefl : ∀ (D : Ty) (v : JSValue), v.wf = true →
    D.isTypeOf v = true → D.equals v v = true
  | .primitive n, v => by
    intro hwf h
    simp [jsEq_refl v]
  | .anyT, v => by
    intro hwf h
    simp [jsEq_refl v]
  | .intersectionOf x y, v => by
    intro hwf h
    simp only [isTypeOf_intersectionOf, Bool.or_eq_true] at h
    by_cases hx : x.isTypeOf v = true
    · simp [hx, equalsRefl x v hwf hx]
    · have hx2 : x.isTypeOf v = false := Bool.not_eq_true _ ▸ hx
      have hy : y.isTypeOf v = true := by
        rcases h with h | h
        · exact absurd h hx
        · exact h
      simp [hx2, hy, equalsRefl y v hwf hy]
  | .unionOf x y, v => by
    intro hwf h
    simp only [isTypeOf_unionOf, Bool.and_eq_true] at h
    simp [equalsRefl x v hwf h.1, equalsRefl y v hwf h.2]
  | .nullableOf t, v => by
    intro hwf h
    simp only [isTypeOf_nullableOf, Bool.or_eq_true] at h
    by_cases hn : jsIsNull v = true
    · simp [hn]
    · have hn2 : jsIsNull v = false := Bool.not_eq_true _ ▸ hn
      have ht : t.isTypeOf v = true := by
        rcases h with h | h
        · exact absurd h hn
        · exact h
      simp [equalsRefl t v hwf ht]
  | .optionalOf t, v => by
    intro hwf h
    simp only [isTypeOf_optionalOf, Bool.or_eq_true] at h
    by_cases hn : jsIsUndefined v = true
    · simp [hn]
    · have ht : t.isTypeOf v = true := by
        rcases h with h | h
        · exact absurd h hn
        · exact h
      simp [equalsRefl t v hwf ht]
  | .arrayOf t, v => by
    intro hwf h
    simp only [isTypeOf_arrayOf, Bool.and_eq_true] at h
    obtain ⟨l, rfl⟩ := (jsIsArray_iff v).mp h.1
    simp only [wf_arr] at hwf
    simp only [equals_arrayOf, elemsOf]
    exact equalsListRefl t l hwf (by simpa [elemsOf] using h.2)
  | .objectOf t, v => by
    intro hwf h
    simp only [isTypeOf_objectOf, Bool.and_eq_true] at h
    obtain ⟨e, rfl⟩ := (isPlainObject_iff v).mp h.1
    simp only [wf_obj, Bool.and_eq_true] at hwf
    simp only [equals_objectOf, entriesOf, beq_self_eq_true, Bool.true_and]
    have hall : ∀ kv ∈ e, t.isTypeOf kv.2 = true :=
      (allValuesOf_iff t e).mp (by simpa [entriesOf] using h.2)
    exact equalsEntriesRefl t e e
      (fun kv hkv => jsLookup_nodup e kv.1 kv.2 hwf.1 hkv)
      (wfEntries_mem e hwf.2) hall
  | .tupleOf ts, v => by
    intro hwf h
    simp only [isTypeOf_tupleOf, Bool.and_eq_true] at h
    obtain ⟨l, rfl⟩ := (jsIsArray_iff v).mp h.1
    simp only [wf_arr] at hwf
    simp only [equals_tupleOf, elemsOf]
    exact tupleEqualsRefl ts l hwf (by simpa [elemsOf] using h.2)
  | .shapeOf ts, v => by
    intro hwf h
    simp only [isTypeOf_shapeOf, Bool.and_eq_true] at h
    simp only [equals_shapeOf]
    exact shapeEqualsRefl ts v hwf h.2
termination_by D _ => (sizeOf D, 0)

/-- Reflexivity of the array-of equality helper on accepted lists. -/
theorem equalsListRefl : ∀ (t : Ty) (l : List JSValue),
    JSValue.wfList l = true → Ty.allOf t l = true → Ty.equalsList t l l = true
  | t, [] => by
    intro hwf h
    simp
  | t, x :: xs => by
    intro hwf h
    simp only [wfList_cons, Bool.and_eq_true] at hwf
    simp only [allOf_cons, Bool.and_eq_true] at h
    simp [equalsRefl t x hwf.1 h.1, equalsListRefl t xs hwf.2 h.2]
termination_by t l => (sizeOf t, 1 + l.length)

/-- Reflexivity of the map-of equality helper: every entry whose key
looks itself up, whose value is well formed and accepted, compares
equal. -/
theorem equalsEntriesRefl : ∀ (t : Ty) (ea eb : List (String × JSValue)),
    (∀ kv ∈ ea, jsLookup eb kv.1 = some kv.2) →
    (∀ kv ∈ ea, JSValue.wf kv.2 = true) →
    (∀ kv ∈ ea, t.isTypeOf kv.2 = true) →
    Ty.equalsEntries t ea eb = true
  | t, [], eb => by
    intro h1 h2 h3
    simp
  | t, (k, w) :: rest, eb => by
    intro h1 h2 h3
    have hl : jsLookup eb k = some w := h1 (k, w) (List.mem_cons_self _ _)
    simp only [equalsEntries_cons, hl, Bool.and_eq_true]
    refine ⟨equalsRefl t w (h2 (k, w) (List.mem_cons_self _ _))
      (h3 (k, w) (List.mem_cons_self _ _)), ?_⟩
    exact equalsEntriesRefl t rest eb
      (fun kv hkv => h1 kv (List.mem_cons_of_mem _ hkv))
      (fun kv hkv => h2 kv (List.mem_cons_of_mem _ hkv))
      (fun kv hkv => h3 kv (List.mem_cons_of_mem _ hkv))
termination_by t ea _ => (sizeOf t, 1 + ea.length)

/-- Reflexivity of the tuple-of equality helper on accepted lists. -/
theorem tupleEqualsRefl : ∀ (ts : List Ty) (l : List JSValue),
    JSValue.wfList l = true → Ty.tupleCheck ts l = true →
    Ty.tupleEquals ts l l = true
  | [], l => by
    intro hwf h
    simp
  | t :: ts, l => by
    intro hwf h
    simp only [tupleCheck_cons, Bool.and_eq_true] at h
    simp [equalsRefl t (headOr l) (wf_headOr l hwf) h.1,
      tupleEqualsRefl ts l.tail (wfList_tail l hwf) h.2]
termination_by ts _ => (sizeOf ts, 0)

/-- Reflexivity of the shape-of equality helper on accepted values. -/
theorem shapeEqualsRefl : ∀ (ts : List (String × Ty)) (v : JSValue),
    v.wf = true → Ty.shapeCheck ts v = true → Ty.shapeEquals ts v v = true
  | [], v => by
    intro hwf h
    simp
  | (k, t) :: rest, v => by
    intro hwf h
    simp only [shapeCheck_cons, Bool.and_eq_true] at h
    simp [equalsRefl t (jsGet v k) (wf_jsGet v k hwf) h.1,
      shapeEqualsRefl rest v hwf h.2]
termination_by ts _ => (sizeOf ts, 0)

end

/-- C1: for every value v and descriptor T, if T.isTypeOf(v) is true
then fromJS(v, T) returns exactly the input value v itself; otherwise it
throws a ValueError whose message is "Expected " followed by T.getName()
and whose value field is the rejected value v. -/
theorem c1_fromJS_identity_or_error (v : JSValue) (t : Ty) :
    (t.isTypeOf v = true → fromJS v t = Except.ok v) ∧
    (t.isTypeOf v = false →
      fromJS v t = Except.error ⟨"Expected " ++ t.getName, v⟩) := by
  constructor <;> intro h <;> simp [fromJS, h]

/-- Witness for C1 at a concrete accepted and a concrete rejected
input. -/
theorem c1_witness :
    fromJS (JSValue.str "foo") stringType = Except.ok (JSValue.str "foo") ∧
    fromJS (JSValue.num 1) stringType =
      Except.error ⟨"Expected " ++ stringType.getName, JSValue.num 1⟩ :=
  ⟨(c1_fromJS_identity_or_error (JSValue.str "foo") stringType).1
      (by simp [stringType, typeofJS]),
    (c1_fromJS_identity_or_error (JSValue.num 1) stringType).2
      (by simp [stringType, typeofJS])⟩

/-- C2: fromJSON parses the string and delegates the parsed value to
fromJS; a SyntaxError from parsing becomes a ValueError with the fixed
message "Invalid JSON" carrying the raw input string; a membership
ValueError thrown by fromJS, and any other exception, propagate to the
caller unchanged. -/
theorem c2_fromJSON_spec (parse : String → Except JSError JSValue)
    (s : String) (t : Ty) :
    (∀ v r, parse s = Except.ok v → fromJS v t = Except.ok r →
      fromJSON parse s t = Except.ok r) ∧
    (∀ v er, parse s = Except.ok v → fromJS v t = Except.error er →
      fromJSON parse s t = Except.error (JSError.valueError er)) ∧
    (parse s = Except.error JSError.syntaxError →
      fromJSON parse s t =
        Except.error (JSError.valueError ⟨"Invalid JSON", JSValue.str s⟩)) ∧
    (∀ e, parse s = Except.error e → e ≠ JSError.syntaxError →
      fromJSON parse s t = Except.error e) := by
  refine ⟨?_, ?_, ?_, ?_⟩
  · intro v r hp hf
    simp [fromJSON, fromJSONtryBody, hp, hf]
  · intro v er hp hf
    simp [fromJSON, fromJSONtryBody, hp, hf]
  · intro hp
    simp [fromJSON, fromJSONtryBody, hp]
  · intro e hp hne
    cases e with
    | syntaxError => exact absurd rfl hne
    | valueError e2 => simp [fromJSON, fromJSONtryBody, hp]
    | hostError m => simp [fromJSON, fromJSONtryBody, hp]

/-- Witness for C2: a successful parse and cast, a parse failure, a
foreign exception, and a membership failure, each at concrete inputs. -/
theorem c2_witness :
    fromJSON (fun _ => Except.ok (JSValue.str "a")) "x" stringType =
      Except.ok (JSValue.str "a") ∧
    fromJSON (fun _ => Except.error JSError.syntaxError) "[" stringType =
      Except.error (JSError.valueError ⟨"Invalid JSON", JSValue.str "["⟩) ∧
    fromJSON (fun _ => Except.error (JSError.hostError "boom")) "x" stringType =
      Except.error (JSError.hostError "boom") ∧
    fromJSON (fun _ => Except.ok (JSValue.num 1)) "1" stringType =
      Except.error (JSError.valueError ⟨"Expected " ++ stringType.getName,
        JSValue.num 1⟩) :=
  ⟨(c2_fromJSON_spec _ "x" stringType).1 (JSValue.str "a") (JSValue.str "a")
      rfl (by simp [fromJS, stringType, typeofJS]),
    (c2_fromJSON_spec _ "[" stringType).2.2.1 rfl,
    (c2_fromJSON_spec _ "x" stringType).2.2.2 (JSError.hostError "boom") rfl
      (by intro h; exact JSError.noConfusion h),
    (c2_fromJSON_spec _ "1" stringType).2.1 (JSValue.num 1) _
      rfl (by simp [fromJS, stringType, typeofJS])⟩

/-- C3: structural equality (modelled from the spec, since equals is
absent from src/lib/index.ts) is reflexive and consistent with
membership: for every descriptor D, leaf or combinator, and every
well-formed value v accepted by D, D.equals(v, v) is true. -/
theorem c3_equals_reflexive_on_members (D : Ty) (v : JSValue)
    (hwf : v.wf = true) (hmem : D.isTypeOf v = true) :
    D.equals v v = true :=
  equalsRefl D v hwf hmem

/-- Witness for C3 at a concrete nested shape descriptor and member. -/
theorem c3_witness :
    (JSValue.obj Proto.objectProto
        [("foo", JSValue.num 1), ("bar", JSValue.arr [JSValue.str "a"])]).wf
      = true ∧
    (Ty.shapeOf [("foo", numberType), ("bar", Ty.arrayOf stringType)]).isTypeOf
        (JSValue.obj Proto.objectProto
          [("foo", JSValue.num 1), ("bar", JSValue.arr [JSValue.str "a"])])
      = true ∧
    (Ty.shapeOf [("foo", numberType), ("bar", Ty.arrayOf stringType)]).equals
        (JSValue.obj Proto.objectProto
          [("foo", JSValue.num 1), ("bar", JSValue.arr [JSValue.str "a"])])
        (JSValue.obj Proto.objectProto
          [("foo", JSValue.num 1), ("bar", JSValue.arr [JSValue.str "a"])])
      = true := by
  refine ⟨by simp [keysNodup], ?_, ?_⟩
  · simp [isPlainObject, jsGet, jsLookup, List.find?, numberType, stringType,
      typeofJS, elemsOf, jsIsArray]
  · exact c3_equals_reflexive_on_members _ _ (by simp [keysNodup])
      (by simp [isPlainObject, jsGet, jsLookup, List.find?, numberType,
        stringType, typeofJS, elemsOf, jsIsArray])

/-- C4: the combinator named intersectionOf implements either-branch
(union) membership, and its name joins the child names with " | ". -/
theorem c4_intersectionOf_union_semantics (a b : Ty) (v : JSValue) :
    ((Ty.intersectionOf a b).isTypeOf v = true ↔
      (a.isTypeOf v = true ∨ b.isTypeOf v = true)) ∧
    (Ty.intersectionOf a b).getName = a.getName ++ " | " ++ b.getName := by
  constructor
  · simp
  · simp

/-- Counterexample to C5 as stated: with T2 a descriptor accepting the
absent value (optionalOf), the two-slot tuple accepts a one-element
array, because the missing slot reads undefined and the optional child
accepts undefined. -/
theorem c5_counterexample :
    (Ty.tupleOf [numberType, Ty.optionalOf numberType]).isTypeOf
      (JSValue.arr [JSValue.num 1]) = true := by
  simp [numberType, typeofJS, headOr, elemsOf, jsIsArray, jsIsUndefined]

/-- C5 (amended): when the second declared descriptor rejects the
absent value, the two-slot tuple rejects every one-element array, and
excess elements beyond the declared arity never change membership. -/
theorem c5_tupleOf_missing_slot (T1 T2 : Ty) (x : JSValue)
    (h : T2.isTypeOf JSValue.undefined = false) :
    (Ty.tupleOf [T1, T2]).isTypeOf (JSValue.arr [x]) = false ∧
    ∀ (l extra : List JSValue), 2 ≤ l.length →
      (Ty.tupleOf [T1, T2]).isTypeOf (JSValue.arr (l ++ extra)) =
        (Ty.tupleOf [T1, T2]).isTypeOf (JSValue.arr l) := by
  constructor
  · simp [elemsOf, jsIsArray, headOr, h]
  · intro l extra hlen
    match l with
    | a :: b :: rest => simp [elemsOf, jsIsArray, headOr]
    | [] => simp at hlen
    | [a] => simp at hlen

/-- Witness for C5 (amended) at concrete descriptors and values. -/
theorem c5_witness :
    stringType.isTypeOf JSValue.undefined = false ∧
    (Ty.tupleOf [numberType, stringType]).isTypeOf
      (JSValue.arr [JSValue.num 1]) = false ∧
    (Ty.tupleOf [numberType, stringType]).isTypeOf
        (JSValue.arr [JSValue.num 1, JSValue.str "a", JSValue.bool true]) =
      (Ty.tupleOf [numberType, stringType]).isTypeOf
        (JSValue.arr [JSValue.num 1, JSValue.str "a"]) := by
  refine ⟨by simp [stringType, typeofJS], ?_, ?_⟩
  · exact (c5_tupleOf_missing_slot numberType stringType (JSValue.num 1)
      (by simp [stringType, typeofJS])).1
  · exact (c5_tupleOf_missing_slot numberType stringType (JSValue.num 1)
      (by simp [stringType, typeofJS])).2
      [JSValue.num 1, JSValue.str "a"] [JSValue.bool true] (by simp)

/-- C6: shapeOf membership holds exactly when the value is a plain
object and every declared key's descriptor accepts the value read at
that key (undefined when missing, so a declared key is mandatory unless
its own descriptor accepts undefined); keys of the value outside the
declared set play no role. -/
theorem c6_shapeOf_membership (ts : List (String × Ty)) (v : JSValue) :
    (Ty.shapeOf ts).isTypeOf v = true ↔
      (isPlainObject v = true ∧
        ∀ kt ∈ ts, Ty.isTypeOf kt.2 (jsGet v kt.1) = true) := by
  simp [Bool.and_eq_true, shapeCheck_iff]

/-- C7: nullableOf accepts null for every child descriptor, and on
every non-null value agrees with the child descriptor. -/
theorem c7_nullableOf_sentinel (t : Ty) :
    (Ty.nullableOf t).isTypeOf JSValue.null = true ∧
    ∀ v : JSValue, v ≠ JSValue.null →
      (Ty.nullableOf t).isTypeOf v = t.isTypeOf v := by
  constructor
  · simp [jsIsNull]
  · intro v hv
    have hn : jsIsNull v = false := by
      cases v with
      | null => exact absurd rfl hv
      | _ => simp [jsIsNull]
    simp [hn]

/-- Witness for C7 at concrete child descriptor and non-null value. -/
theorem c7_witness :
    (Ty.nullableOf stringType).isTypeOf JSValue.null = true ∧
    (Ty.nullableOf stringType).isTypeOf (JSValue.str "a") =
      stringType.isTypeOf (JSValue.str "a") :=
  ⟨(c7_nullableOf_sentinel stringType).1,
    (c7_nullableOf_sentinel stringType).2 (JSValue.str "a")
      (fun h => JSValue.noConfusion h)⟩

/-- C8: arrayOf membership holds exactly when the value is an array all
of whose elements the child descriptor accepts; in particular the empty
array is a member for every child descriptor. -/
theorem c8_arrayOf_membership (t : Ty) (v : JSValue) :
    ((Ty.arrayOf t).isTypeOf v = true ↔
      ∃ l, v = JSValue.arr l ∧ ∀ x ∈ l, t.isTypeOf x = true) ∧
    (Ty.arrayOf t).isTypeOf (JSValue.arr []) = true := by
  constructor
  · cases v with
    | arr l => simp [jsIsArray, elemsOf, allOf_iff]
    | _ => simp [jsIsArray]
  · simp [jsIsArray, elemsOf]

/-- C9: objectOf and shapeOf accept only values whose prototype is
exactly Object.prototype: arrays, class instances (other prototype) and
null-prototype objects are rejected even when every entry satisfies the
child descriptors. -/
theorem c9_plain_objects_only (t : Ty) (ts : List (String × Ty))
    (l : List JSValue) (e : List (String × JSValue)) (v : JSValue) :
    ((Ty.objectOf t).isTypeOf v = true → isPlainObject v = true) ∧
    ((Ty.shapeOf ts).isTypeOf v = true → isPlainObject v = true) ∧
    isPlainObject (JSValue.arr l) = false ∧
    isPlainObject (JSValue.obj Proto.nullProto e) = false ∧
    isPlainObject (JSValue.obj Proto.otherProto e) = false ∧
    (Ty.objectOf t).isTypeOf (JSValue.arr l) = false ∧
    (Ty.objectOf t).isTypeOf (JSValue.obj Proto.nullProto e) = false ∧
    (Ty.objectOf t).isTypeOf (JSValue.obj Proto.otherProto e) = false ∧
    (Ty.shapeOf ts).isTypeOf (JSValue.arr l) = false ∧
    (Ty.shapeOf ts).isTypeOf (JSValue.obj Proto.nullProto e) = false ∧
    (Ty.shapeOf ts).isTypeOf (JSValue.obj Proto.otherProto e) = false := by
  refine ⟨?_, ?_, by simp [isPlainObject], by simp [isPlainObject],
    by simp [isPlainObject], by simp [isPlainObject], by simp [isPlainObject],
    by simp [isPlainObject], by simp [isPlainObject], by simp [isPlainObject],
    by simp [isPlainObject]⟩
  · intro h
    simp only [isTypeOf_objectOf, Bool.and_eq_true] at h
    exact h.1
  · intro h
    simp only [isTypeOf_shapeOf, Bool.and_eq_true] at h
    exact h.1

/-- Witness for C9: a plain object passes the prototype gate, and an
otherwise valid null-prototype object is rejected. -/
theorem c9_witness :
    isPlainObject (JSValue.obj Proto.objectProto [("a", JSValue.str "b")])
      = true ∧
    (Ty.objectOf stringType).isTypeOf
      (JSValue.obj Proto.nullProto [("a", JSValue.str "b")]) = false :=
  ⟨(c9_plain_objects_only stringType [] [] [("a", JSValue.str "b")]
      (JSValue.obj Proto.objectProto [("a", JSValue.str "b")])).1
      (by simp [isPlainObject, entriesOf, stringType, typeofJS]),
    (c9_plain_objects_only stringType [] [] [("a", JSValue.str "b")]
      (JSValue.obj Proto.objectProto [("a", JSValue.str "b")])).2.2.2.2.2.2.1⟩

/-- C10: anyType rejects exactly the two sentinels: it accepts a value
precisely when the value is neither null nor undefined, and its name is
"any". -/
theorem c10_anyType_strict (v : JSValue) :
    (anyType.isTypeOf v = true ↔ (v ≠ JSValue.null ∧ v ≠ JSValue.undefined)) ∧
    anyType.getName = "any" := by
  constructor
  · cases v <;> simp [anyType, jsIsNull, jsIsUndefined]
  · simp [anyType]
